import Mathlib

/-!
Verification of the 100balance BMS-to-MQTT bridge (`app.py`).

Shallow embedding conventions: bytes are `Nat` (kept below 256 by
hypotheses where it matters), the decoded register dictionary is an
association list, Python floats are modelled as exact rationals `ℚ`, and
fallible code (raising exceptions) returns `Option`.
-/

namespace Balance

/-- Python `round()` of a rational to the nearest integer, ties to even
(banker's rounding), as used by `int(round(voltage * current))`. -/
def pyRoundInt (x : ℚ) : ℤ :=
  if x - ⌊x⌋ < 1/2 then ⌊x⌋
  else if 1/2 < x - ⌊x⌋ then ⌊x⌋ + 1
  else if ⌊x⌋ % 2 = 0 then ⌊x⌋ else ⌊x⌋ + 1

/-- Python `round(x, n)`: round to `n` decimal digits, ties to even. -/
def pyRoundTo (n : ℕ) (x : ℚ) : ℚ := (pyRoundInt (x * 10 ^ n) : ℚ) / 10 ^ n

/-- Python `int()` applied to a float: truncation toward zero. -/
def pyInt (x : ℚ) : ℤ := if 0 ≤ x then ⌊x⌋ else -⌊-x⌋

/-- One LSB-first shift step of the loop body of `compute_crc`:
`crc = (crc >> 1) ^ 0xA001 if (crc & 1) else (crc >> 1)`. -/
def crcBitStep (crc : ℕ) : ℕ :=
  if crc &&& 1 = 1 then (crc >>> 1) ^^^ 0xA001 else crc >>> 1

/-- Processing of one input byte inside `compute_crc`: `crc ^= b` followed
by eight shift steps. -/
def crcByteStep (crc b : ℕ) : ℕ := crcBitStep^[8] (crc ^^^ b)

/-- `compute_crc(data)`: Modbus RTU CRC16 (poly 0xA001), initial register
0xFFFF, final mask `& 0xFFFF`. -/
def compute_crc (data : List ℕ) : ℕ := (data.foldl crcByteStep 0xFFFF) &&& 0xFFFF

/-- The two-byte little-endian encoding of a 16-bit checksum, as produced
by `struct.pack("<H", crc)`. -/
def le16 (c : ℕ) : List ℕ := [c % 256, c / 256]

/-- `validate_rtu_frame(frame)`: the frame carries its CRC little-endian in
its final two bytes (`frame[-2] | (frame[-1] << 8)`); frames shorter than
5 bytes are rejected. -/
def validate_rtu_frame (frame : List ℕ) : Bool :=
  if frame.length < 5 then false
  else
    let data := frame.take (frame.length - 2)
    let recv_crc := frame.getD (frame.length - 2) 0 |||
      (frame.getD (frame.length - 1) 0 <<< 8)
    recv_crc == compute_crc data

/-- Python `buf.find(bytes([a, f]))`: index of the first occurrence of the
two-byte needle in the buffer, if any. -/
def findNeedle (a f : ℕ) : List ℕ → Option ℕ
  | [] => none
  | x :: rest =>
    match rest with
    | [] => none
    | y :: _ =>
      if x = a ∧ y = f then some 0 else (findNeedle a f rest).map (· + 1)

/-- `find_frame(buf, addr, func)`: slice the first `[addr][func]`-anchored
candidate frame out of the buffer using the declared byte count, and hand
it to `validate_rtu_frame`. -/
def find_frame (buf : List ℕ) (addr func : ℕ) : Option (List ℕ) :=
  match findNeedle addr func buf with
  | none => none
  | some idx =>
    if buf.length < idx + 3 then none
    else
      let byte_count := buf.getD (idx + 2) 0
      let frame_len := 3 + byte_count + 2
      if buf.length < idx + frame_len then none
      else
        let frame := (buf.drop idx).take frame_len
        if validate_rtu_frame frame then some frame else none

/-- The register-filling loop of `decode_registers_from_frame`: consume the
payload two bytes at a time as big-endian uint16 (`struct.unpack(">H", ·)`),
register indices counting up from `start`. `struct.unpack` raises
`struct.error` on a dangling single byte; the raise is modelled as `none`. -/
def unpackRegs (start : ℕ) : List ℕ → Option (List (ℕ × ℕ))
  | [] => some []
  | [_] => none
  | a :: b :: rest => (unpackRegs (start + 1) rest).map ((start, a * 256 + b) :: ·)

/-- `decode_registers_from_frame(frame)`: payload = `frame[3 : 3+frame[2]]`,
decoded to the dictionary 1-based register index ↦ uint16 value. -/
def decode_registers_from_frame (frame : List ℕ) : Option (List (ℕ × ℕ)) :=
  unpackRegs 1 ((frame.drop 3).take (frame.getD 2 0))

/-- `regs.get(i)` on the decoded register dictionary. -/
def regGet (regs : List (ℕ × ℕ)) (i : ℕ) : Option ℕ := regs.lookup i

/-- The `voltage` variable of the main loop: set whenever register 57
exists, to `round(vraw * 0.1, 2)` (the `10 < voltage < 100` window gates
only the MQTT publish of `BatteryVoltage`, not this variable). -/
def voltage (regs : List (ℕ × ℕ)) : Option ℚ :=
  (regGet regs 57).map (fun vraw => pyRoundTo 2 ((vraw : ℚ) * (1/10)))

/-- The `current` variable: set whenever register 58 exists, to
`round((craw - 30000) * 0.1, 2)` (the `abs(current) < 500` window gates
only the publish of `Current`). -/
def current (regs : List (ℕ × ℕ)) : Option ℚ :=
  (regGet regs 58).map (fun craw => pyRoundTo 2 (((craw : ℚ) - 30000) * (1/10)))

/-- The `rem_capacity` variable: set whenever register 76 exists, to
`round(rcraw * 0.1, 2)`. -/
def rem_capacity (regs : List (ℕ × ℕ)) : Option ℚ :=
  (regGet regs 76).map (fun rcraw => pyRoundTo 2 ((rcraw : ℚ) * (1/10)))

/-- The `power` variable and published `Power` field:
`int(round(voltage * current))` computed exactly when both the `voltage`
and `current` variables are set. -/
def power (regs : List (ℕ × ℕ)) : Option ℤ :=
  match voltage regs, current regs with
  | some v, some c => some (pyRoundInt (v * c))
  | _, _ => none

/-- Energy accounting of one poll cycle (lines 401-409 of `app.py`):
`e_kwh = abs(power)/1000 * (interval/3600)`, added to `energy_in_kwh` when
`power > 0`, to `energy_out_kwh` when `power < 0`; nothing happens when
`power` is undefined for the cycle. -/
def energyStep (pOpt : Option ℤ) (interval : ℚ) (eIn eOut : ℚ) : ℚ × ℚ :=
  match pOpt with
  | none => (eIn, eOut)
  | some p =>
    let dt_h : ℚ := interval / 3600
    let e_kwh : ℚ := (|p| : ℤ) / 1000 * dt_h
    if 0 < p then (eIn + e_kwh, eOut)
    else if p < 0 then (eIn, eOut + e_kwh)
    else (eIn, eOut)

/-- `time_to_go_s` (lines 411-416 of `app.py`): computed when
`rem_capacity`, `power` and `voltage` are all set and `abs(power) > 10`;
`usable_ah = max(rem_capacity - reserve_ah, 0.0)`,
`usable_wh = usable_ah * voltage`,
`time_to_go_s = int((usable_wh / abs(power)) * 3600)`. -/
def time_to_go (rcOpt : Option ℚ) (pOpt : Option ℤ) (vOpt : Option ℚ)
    (reserve_ah : ℚ) : Option ℤ :=
  match rcOpt, pOpt, vOpt with
  | some rc, some p, some v =>
    if 10 < |p| then
      let usable_ah := max (rc - reserve_ah) 0
      let usable_wh := usable_ah * v
      some (pyInt (usable_wh / ((|p| : ℤ) : ℚ) * 3600))
    else none
  | _, _, _ => none

/-- A JSON value as consumed by `float(...)` in `load_state`: either a
value whose float conversion succeeds with result `q`, or one on which
`float` raises. -/
inductive JVal where
  | num (q : ℚ)
  | bad
deriving DecidableEq

/-- What `open` + `json.load` can yield inside `load_state`: a raised
exception (missing or unreadable file, invalid JSON), a parsed document
that is not an object (so `.get` raises), or an object of fields. -/
inductive FileState where
  | unreadable
  | notObj
  | obj (fields : List (String × JVal))

/-- `float(v)`: `none` models a raised exception. -/
def pyFloat : JVal → Option ℚ
  | .num q => some q
  | .bad => none

/-- `load_state(path)` over the parsed content of the state file: returns
`(float(s.get("energy_in_kwh", 0.0)), float(s.get("energy_out_kwh", 0.0)))`,
and `(0.0, 0.0)` on any exception. -/
def load_state : FileState → ℚ × ℚ
  | .obj fields =>
    match pyFloat ((fields.lookup "energy_in_kwh").getD (.num 0)),
          pyFloat ((fields.lookup "energy_out_kwh").getD (.num 0)) with
    | some a, some b => (a, b)
    | _, _ => (0, 0)
  | _ => (0, 0)

/-- `save_state(path, e_in, e_out)`: the JSON object written (atomically,
via a temporary file and rename) to the state file. -/
def save_state (energy_in_kwh energy_out_kwh : ℚ) (ts : ℚ) : FileState :=
  .obj [("energy_in_kwh", .num energy_in_kwh),
        ("energy_out_kwh", .num energy_out_kwh),
        ("ts", .num ts)]

/-- Flip bit `j` (0-based, LSB first) of byte `i` of a byte list. -/
def flipBit (l : List ℕ) (i j : ℕ) : List ℕ := l.set i (l.getD i 0 ^^^ 2 ^ j)

/-- Claim C2: on a cycle with defined power, the energy accumulator adds
exactly `abs(power)/1000 * (interval/3600)` kWh to `energy_in_kwh` when
`power > 0`, the same amount to `energy_out_kwh` when `power < 0`, and
leaves both unchanged when `power == 0`; in particular `power = 100` W over
a 10-second interval adds `100/1000 * (10/3600)` kWh to `energy_in_kwh`
and leaves `energy_out_kwh` unchanged. -/
theorem energy_accumulation_exact (p : ℤ) (interval eIn eOut : ℚ) :
    (0 < p → energyStep (some p) interval eIn eOut =
      (eIn + ((|p| : ℤ) : ℚ) / 1000 * (interval / 3600), eOut)) ∧
    (p < 0 → energyStep (some p) interval eIn eOut =
      (eIn, eOut + ((|p| : ℤ) : ℚ) / 1000 * (interval / 3600))) ∧
    (p = 0 → energyStep (some p) interval eIn eOut = (eIn, eOut)) ∧
    energyStep (some 100) 10 eIn eOut = (eIn + 100 / 1000 * (10 / 3600), eOut) := by
  refine ⟨fun h => ?_, fun h => ?_, fun h => ?_, ?_⟩
  · simp [energyStep, h]
  · have h1 : ¬ (0 < p) := by omega
    simp [energyStep, h, h1]
  · subst h
    simp [energyStep]
  · norm_num [energyStep]

/-- Witness for C2 at power 100 W (charging) and -50 W (discharging). -/
theorem energy_accumulation_exact_witness :
    energyStep (some 100) 10 0 0 = (0 + 100 / 1000 * (10 / 3600), 0) ∧
    energyStep (some (-50)) 10 2 3 = (2, 3 + 50 / 1000 * (10 / 3600)) := by
  constructor
  · exact (energy_accumulation_exact 100 10 0 0).1 (by norm_num)
  · rw [(energy_accumulation_exact (-50) 10 2 3).2.1 (by norm_num)]
    norm_num

/-- Claim C7: both energy totals are monotonically non-decreasing across a
poll cycle (for any non-negative poll interval). -/
theorem energy_totals_monotone (pOpt : Option ℤ) (interval eIn eOut : ℚ)
    (hI : 0 ≤ interval) :
    eIn ≤ (energyStep pOpt interval eIn eOut).1 ∧
    eOut ≤ (energyStep pOpt interval eIn eOut).2 := by
  cases pOpt with
  | none => simp [energyStep]
  | some p =>
    have he : (0 : ℚ) ≤ |(p : ℚ)| / 1000 * (interval / 3600) :=
      mul_nonneg (div_nonneg (abs_nonneg _) (by norm_num))
        (div_nonneg hI (by norm_num))
    simp only [energyStep]
    split_ifs <;> constructor <;> simp <;> linarith [he]

/-- Witness for C7 at a concrete cycle. -/
theorem energy_totals_monotone_witness :
    (5 : ℚ) ≤ (energyStep (some (-70)) 10 5 6).1 ∧
    (6 : ℚ) ≤ (energyStep (some (-70)) 10 5 6).2 :=
  energy_totals_monotone (some (-70)) 10 5 6 (by norm_num)

/-- Claim C9: `save_state` followed by `load_state` returns exactly the two
energy totals that were written. -/
theorem save_load_roundtrip (eIn eOut ts : ℚ) :
    load_state (save_state eIn eOut ts) = (eIn, eOut) := by
  simp [load_state, save_state, pyFloat, List.lookup]

/-- Claim C10: `load_state` defaults each missing component independently
(a missing key yields 0.0 for that component only), and any exception
(unreadable file, non-object JSON, failing float conversion) yields
`(0.0, 0.0)`. -/
theorem load_state_defaults :
    (∀ fields q, fields.lookup "energy_in_kwh" = none →
        fields.lookup "energy_out_kwh" = some (JVal.num q) →
        load_state (.obj fields) = (0, q)) ∧
    (∀ fields q, fields.lookup "energy_in_kwh" = some (JVal.num q) →
        fields.lookup "energy_out_kwh" = none →
        load_state (.obj fields) = (q, 0)) ∧
    load_state .unreadable = (0, 0) ∧
    load_state .notObj = (0, 0) ∧
    (∀ fields, pyFloat ((fields.lookup "energy_in_kwh").getD (.num 0)) = none →
        load_state (.obj fields) = (0, 0)) ∧
    (∀ fields, pyFloat ((fields.lookup "energy_out_kwh").getD (.num 0)) = none →
        load_state (.obj fields) = (0, 0)) := by
  refine ⟨?_, ?_, rfl, rfl, ?_, ?_⟩
  · intro fields q h1 h2
    simp [load_state, h1, h2, pyFloat]
  · intro fields q h1 h2
    simp [load_state, h1, h2, pyFloat]
  · intro fields h
    simp [load_state, h]
  · intro fields h
    cases h2 : pyFloat ((fields.lookup "energy_in_kwh").getD (.num 0)) <;>
      simp [load_state, h, h2]

/-- Witness for C10: a file with only `energy_out_kwh`, a file with only
`energy_in_kwh`, and a file whose `energy_in_kwh` float conversion raises. -/
theorem load_state_defaults_witness :
    load_state (.obj [("energy_out_kwh", JVal.num 7)]) = (0, 7) ∧
    load_state (.obj [("energy_in_kwh", JVal.num 9)]) = (9, 0) ∧
    load_state (.obj [("energy_in_kwh", JVal.bad)]) = (0, 0) := by
  refine ⟨?_, ?_, ?_⟩
  · exact load_state_defaults.1 [("energy_out_kwh", JVal.num 7)] 7 rfl rfl
  · exact load_state_defaults.2.1 [("energy_in_kwh", JVal.num 9)] 9 rfl rfl
  · exact load_state_defaults.2.2.2.2.1 [("energy_in_kwh", JVal.bad)] rfl

/-- An odd-length payload always makes the register-extraction loop raise
on its final dangling byte, aborting the whole decode. -/
theorem unpackRegs_odd : ∀ (l : List ℕ) (s : ℕ), l.length % 2 = 1 →
    unpackRegs s l = none
  | [], _, h => by simp at h
  | [_], _, _ => rfl
  | a :: b :: rest, s, h => by
    have hr : rest.length % 2 = 1 := by
      simp only [List.length_cons] at h
      omega
    simp [unpackRegs, unpackRegs_odd rest (s + 1) hr]

set_option maxRecDepth 10000 in
/-- Counterexample to claim C5: a CRC-valid frame with odd byte count 3;
the decoder raises (returns no map at all) instead of producing the
`floor(3/2) = 1` complete register. -/
theorem decode_odd_payload_cex :
    validate_rtu_frame [81, 3, 3, 1, 2, 5, 217, 125] = true ∧
    decode_registers_from_frame [81, 3, 3, 1, 2, 5, 217, 125] = none := by
  constructor <;> decide

/-- Claim C5 as amended: for every frame whose payload has odd length, the
decoder fails (the `struct.unpack` of the dangling byte raises), producing
no register map for that cycle. -/
theorem decode_odd_payload_fails (frame : List ℕ)
    (h : ((frame.drop 3).take (frame.getD 2 0)).length % 2 = 1) :
    decode_registers_from_frame frame = none :=
  unpackRegs_odd _ 1 h

/-- Witness for C5 on the CRC-valid odd-payload frame. -/
theorem decode_odd_payload_fails_witness :
    decode_registers_from_frame [81, 3, 3, 1, 2, 5, 217, 125] = none :=
  decode_odd_payload_fails [81, 3, 3, 1, 2, 5, 217, 125] (by decide)

/-- The register-extraction loop on an even-length payload: one entry per
big-endian byte pair, keys counting up from `s`. -/
theorem unpackRegs_even (n : ℕ) : ∀ (l : List ℕ) (s : ℕ), l.length = 2 * n →
    ∃ out, unpackRegs s l = some out ∧
      out.map Prod.fst = List.range' s n ∧
      ∀ k, k < n → out.getD k (0, 0) =
        (s + k, 256 * l.getD (2 * k) 0 + l.getD (2 * k + 1) 0) := by
  induction n with
  | zero =>
    intro l s h
    have : l = [] := List.eq_nil_of_length_eq_zero (by omega)
    subst this
    exact ⟨[], rfl, by simp, by omega⟩
  | succ m ih =>
    intro l s h
    match l, h with
    | a :: b :: rest, h =>
      have hr : rest.length = 2 * m := by
        simp only [List.length_cons] at h
        omega
      obtain ⟨out, h1, h2, h3⟩ := ih rest (s + 1) hr
      refine ⟨(s, a * 256 + b) :: out, by simp [unpackRegs, h1], ?_, ?_⟩
      · simp [h2, List.range'_succ]
      · intro k hk
        cases k with
        | zero => simp [mul_comm]
        | succ k2 =>
          have h4 := h3 k2 (by omega)
          have e1 : (a :: b :: rest).getD (2 * (k2 + 1)) 0 = rest.getD (2 * k2) 0 := by
            rw [show 2 * (k2 + 1) = 2 * k2 + 1 + 1 by ring, List.getD_cons_succ,
              List.getD_cons_succ]
          have e2 : (a :: b :: rest).getD (2 * (k2 + 1) + 1) 0 =
              rest.getD (2 * k2 + 1) 0 := by
            rw [show 2 * (k2 + 1) + 1 = 2 * k2 + 1 + 1 + 1 by ring, List.getD_cons_succ,
              List.getD_cons_succ]
          rw [List.getD_cons_succ, h4, e1, e2, Prod.mk.injEq]
          exact ⟨by omega, rfl⟩

/-- Claim C8: a validated frame with even payload length `2n` decodes to
exactly `n` entries with keys exactly `1..n`, entry `k` holding the
big-endian uint16 of payload bytes `2(k-1)` and `2(k-1)+1`. -/
theorem decode_even_payload (frame : List ℕ) (n : ℕ)
    (h : ((frame.drop 3).take (frame.getD 2 0)).length = 2 * n) :
    ∃ out, decode_registers_from_frame frame = some out ∧
      out.length = n ∧
      out.map Prod.fst = List.range' 1 n ∧
      ∀ k, k < n → out.getD k (0, 0) =
        (1 + k, 256 * ((frame.drop 3).take (frame.getD 2 0)).getD (2 * k) 0 +
          ((frame.drop 3).take (frame.getD 2 0)).getD (2 * k + 1) 0) := by
  obtain ⟨out, h1, h2, h3⟩ := unpackRegs_even n _ 1 h
  refine ⟨out, h1, ?_, h2, h3⟩
  have := congrArg List.length h2
  simpa using this

/-- Witness for C8: a 4-byte payload decodes to two registers. -/
theorem decode_even_payload_witness :
    (decode_registers_from_frame [81, 3, 4, 1, 2, 3, 4, 9, 9]).isSome = true := by
  obtain ⟨out, h1, -⟩ := decode_even_payload [81, 3, 4, 1, 2, 3, 4, 9, 9] 2 (by decide)
  rw [h1]
  rfl

/-- Claim C6: whenever the slice anchored at the first `[addr][func]` match
fails checksum validation, `find_frame` returns no frame — the search is
never retried past the first match, even if a later match would start a
valid frame. -/
theorem find_frame_no_retry (buf : List ℕ) (addr func idx : ℕ)
    (hfind : findNeedle addr func buf = some idx)
    (hval : validate_rtu_frame
      ((buf.drop idx).take (3 + buf.getD (idx + 2) 0 + 2)) = false) :
    find_frame buf addr func = none := by
  unfold find_frame
  rw [hfind]
  show (if buf.length < idx + 3 then none
      else if buf.length < idx + (3 + buf.getD (idx + 2) 0 + 2) then none
      else if validate_rtu_frame
          ((buf.drop idx).take (3 + buf.getD (idx + 2) 0 + 2)) = true then
        some ((buf.drop idx).take (3 + buf.getD (idx + 2) 0 + 2))
      else none)
    = none
  split_ifs with h1 h2 h3
  · rfl
  · rfl
  · rw [hval] at h3
    exact absurd h3 (by simp)
  · rfl

/-- Witness for C6: the first match at offset 0 fails validation and
`find_frame` gives up, although the buffer holds a CRC-valid frame at
offset 5. -/
theorem find_frame_no_retry_witness :
    find_frame [81, 3, 0, 0, 0, 81, 3, 2, 1, 2, 248, 25] 81 3 = none ∧
    validate_rtu_frame [81, 3, 2, 1, 2, 248, 25] = true := by
  constructor
  · exact find_frame_no_retry [81, 3, 0, 0, 0, 81, 3, 2, 1, 2, 248, 25] 81 3 0
      (by decide) (by decide)
  · decide

/-- Counterexample to claim C1: register 57 present with scaled pack
voltage 5.0 V, outside the validity window `(10, 100)` V, yet `Power` is
still computed for the cycle (the windows gate only the publishing of
`BatteryVoltage` and `Current` themselves, not the `voltage`/`current`
variables that feed the power computation). -/
theorem power_window_cex :
    voltage [(57, 50), (58, 30050)] = some 5 ∧
    ¬ (10 < (5 : ℚ) ∧ (5 : ℚ) < 100) ∧
    power [(57, 50), (58, 30050)] = some 25 := by
  refine ⟨?_, by norm_num, ?_⟩
  · norm_num [voltage, pyRoundTo, pyRoundInt,
      show regGet [(57, 50), (58, 30050)] 57 = some 50 from rfl]
  · norm_num [power, voltage, current, pyRoundTo, pyRoundInt,
      show regGet [(57, 50), (58, 30050)] 57 = some 50 from rfl,
      show regGet [(57, 50), (58, 30050)] 58 = some 30050 from rfl]

/-- Claim C1 as amended: the derived `Power` field is present exactly when
registers 57 and 58 both exist in the snapshot's register map; the
validity windows of voltage and current are not consulted for it. -/
theorem power_defined_iff_registers_present (regs : List (ℕ × ℕ)) :
    (power regs).isSome = ((regGet regs 57).isSome && (regGet regs 58).isSome) := by
  unfold power voltage current
  cases regGet regs 57 <;> cases regGet regs 58 <;> simp

/-- Counterexample to claim C4: at remainingCapacity 50 Ah, reserve 15 Ah,
voltage 25.2 V, power -199 W the code computes `int(882/199*3600) = 15955`,
while the claimed `round(882/199*3600)` is 15956. -/
theorem time_to_go_round_cex :
    time_to_go (some 50) (some (-199)) (some (252 / 10)) 15 = some 15955 ∧
    pyRoundInt (max ((50 : ℚ) - 15) 0 * (252 / 10) / ((|(-199 : ℤ)| : ℤ) : ℚ) * 3600)
      = 15956 := by
  constructor
  · norm_num [time_to_go, pyInt]
  · norm_num [pyRoundInt]

/-- Claim C4 as amended: time-to-go is computed iff remaining capacity,
power and voltage are all defined and `abs(power) > 10` W, and then equals
the truncation toward zero (Python `int()`, not `round`) of
`usableWh / abs(power) * 3600` with `usableAh = max(remainingCapacity -
reserveAh, 0)` and `usableWh = usableAh * voltage`; the worked example
(50 Ah, reserve 15 Ah, 25.2 V, -200 W) still yields exactly 15876 s. -/
theorem time_to_go_spec (rcOpt : Option ℚ) (pOpt : Option ℤ) (vOpt : Option ℚ)
    (res : ℚ) :
    (∀ rc p v, rcOpt = some rc → pOpt = some p → vOpt = some v →
      ((10 < |p| → time_to_go rcOpt pOpt vOpt res =
          some (pyInt (max (rc - res) 0 * v / ((|p| : ℤ) : ℚ) * 3600))) ∧
        (¬ 10 < |p| → time_to_go rcOpt pOpt vOpt res = none))) ∧
    ((rcOpt = none ∨ pOpt = none ∨ vOpt = none) →
      time_to_go rcOpt pOpt vOpt res = none) ∧
    time_to_go (some 50) (some (-200)) (some (252 / 10)) 15 = some 15876 := by
  refine ⟨?_, ?_, by norm_num [time_to_go, pyInt]⟩
  · rintro rc p v rfl rfl rfl
    constructor
    · intro h
      simp [time_to_go, h]
    · intro h
      simp [time_to_go, h]
  · intro hnone
    rcases rcOpt with _ | rc <;> rcases pOpt with _ | p <;> rcases vOpt with _ | v <;>
      simp_all [time_to_go]

/-- Witness for C4 at the worked example input. -/
theorem time_to_go_spec_witness :
    time_to_go (some 50) (some (-200)) (some (252 / 10)) 15 =
      some (pyInt (max ((50 : ℚ) - 15) 0 * (252 / 10) / ((|(-200 : ℤ)| : ℤ) : ℚ) * 3600)) ∧
    time_to_go (some 50) (some (-200)) (some (252 / 10)) 15 = some 15876 :=
  ⟨((time_to_go_spec (some 50) (some (-200)) (some (252 / 10)) 15).1 50 (-200)
      (252 / 10) rfl rfl rfl).1 (by norm_num),
    (time_to_go_spec (some 50) (some (-200)) (some (252 / 10)) 15).2.2⟩


theorem xor_swap_right (t C u : ℕ) : (t ^^^ C) ^^^ u = (t ^^^ u) ^^^ C := by
  rw [Nat.xor_assoc, Nat.xor_comm C u, ← Nat.xor_assoc]

theorem xor_xor_cancel (t u C : ℕ) : (t ^^^ C) ^^^ (u ^^^ C) = t ^^^ u := by
  rw [Nat.xor_comm u C, ← Nat.xor_assoc, Nat.xor_assoc t C C, Nat.xor_self,
    Nat.xor_zero]

theorem crcBitStep_xor (a b : ℕ) : crcBitStep (a ^^^ b) = crcBitStep a ^^^ crcBitStep b := by
  have hsr : (a ^^^ b) >>> 1 = a >>> 1 ^^^ b >>> 1 := by
    simp only [Nat.shiftRight_eq_div_pow, pow_one, Nat.xor_div_two]
  unfold crcBitStep
  simp only [Nat.and_one_is_mod]
  by_cases ha : a % 2 = 1 <;> by_cases hb : b % 2 = 1
  · have hx : ¬ ((a ^^^ b) % 2 = 1) := by
      rw [Nat.xor_mod_two_eq_one]
      tauto
    rw [if_pos ha, if_pos hb, if_neg hx, hsr, xor_xor_cancel]
  · have hx : (a ^^^ b) % 2 = 1 := by
      rw [Nat.xor_mod_two_eq_one]
      tauto
    rw [if_pos hx, if_pos ha, if_neg hb, hsr]
    exact xor_swap_right _ _ _
  · have hx : (a ^^^ b) % 2 = 1 := by
      rw [Nat.xor_mod_two_eq_one]
      tauto
    rw [if_pos hx, if_neg ha, if_pos hb, hsr, Nat.xor_assoc]
  · have hx : ¬ ((a ^^^ b) % 2 = 1) := by
      rw [Nat.xor_mod_two_eq_one]
      tauto
    rw [if_neg hx, if_neg ha, if_neg hb, hsr]

theorem crcBitStep_lt (c : ℕ) (h : c < 65536) : crcBitStep c < 65536 := by
  have h1 : c >>> 1 < 65536 := by
    rw [Nat.shiftRight_eq_div_pow, pow_one]
    omega
  unfold crcBitStep
  split_ifs
  · have e : (65536 : ℕ) = 2 ^ 16 := by norm_num
    rw [e] at h1 ⊢
    exact Nat.xor_lt_two_pow h1 (by norm_num)
  · exact h1

theorem crcBitStep_ne_zero (c : ℕ) (hlt : c < 65536) (hc : c ≠ 0) :
    crcBitStep c ≠ 0 := by
  unfold crcBitStep
  split_ifs with hodd
  · intro h0
    have h1 : c >>> 1 = 0xA001 := Nat.xor_eq_zero.mp h0
    rw [Nat.shiftRight_eq_div_pow, pow_one] at h1
    omega
  · intro h0
    rw [Nat.shiftRight_eq_div_pow, pow_one] at h0
    rw [Nat.and_one_is_mod] at hodd
    omega

theorem crcIter_xor (m a b : ℕ) :
    crcBitStep^[m] (a ^^^ b) = crcBitStep^[m] a ^^^ crcBitStep^[m] b := by
  induction m with
  | zero => simp
  | succ k ih => simp only [Function.iterate_succ_apply', ih, crcBitStep_xor]

theorem crcIter_lt (m c : ℕ) (h : c < 65536) : crcBitStep^[m] c < 65536 := by
  induction m with
  | zero => simpa
  | succ k ih =>
    rw [Function.iterate_succ_apply']
    exact crcBitStep_lt _ ih

theorem crcIter_ne_zero (m c : ℕ) (hlt : c < 65536) (hc : c ≠ 0) :
    crcBitStep^[m] c ≠ 0 := by
  induction m with
  | zero => simpa
  | succ k ih =>
    rw [Function.iterate_succ_apply']
    exact crcBitStep_ne_zero _ (crcIter_lt k c hlt) ih

theorem crcByteStep_xor_left (c d b : ℕ) :
    crcByteStep (c ^^^ d) b = crcByteStep c b ^^^ crcBitStep^[8] d := by
  unfold crcByteStep
  rw [xor_swap_right c d b]
  exact crcIter_xor 8 (c ^^^ b) d

theorem crcByteStep_lt (c b : ℕ) (hc : c < 65536) (hb : b < 65536) :
    crcByteStep c b < 65536 := by
  unfold crcByteStep
  apply crcIter_lt
  have e : (65536 : ℕ) = 2 ^ 16 := by norm_num
  rw [e] at hc hb ⊢
  exact Nat.xor_lt_two_pow hc hb

theorem foldl_crc_lt (l : List ℕ) : ∀ c, c < 65536 → (∀ b ∈ l, b < 256) →
    l.foldl crcByteStep c < 65536 := by
  induction l with
  | nil =>
    intro c hc _
    simpa
  | cons x t ih =>
    intro c hc hb
    rw [List.foldl_cons]
    refine ih _ (crcByteStep_lt c x hc ?_) (fun b hbm => hb b (by simp [hbm]))
    have := hb x (by simp)
    omega

theorem foldl_crc_xor (l : List ℕ) : ∀ c d : ℕ,
    l.foldl crcByteStep (c ^^^ d) =
      l.foldl crcByteStep c ^^^ crcBitStep^[8 * l.length] d := by
  induction l with
  | nil =>
    intro c d
    simp
  | cons x t ih =>
    intro c d
    rw [List.foldl_cons, List.foldl_cons, crcByteStep_xor_left, ih,
      ← Function.iterate_add_apply, List.length_cons]
    congr 1

theorem xor_eq_left (a d : ℕ) (h : a ^^^ d = a) : d = 0 := by
  have h2 : a ^^^ (a ^^^ d) = a ^^^ a := by rw [h]
  rwa [← Nat.xor_assoc, Nat.xor_self, Nat.zero_xor] at h2

theorem foldl_crc_set_ne (l : List ℕ) : ∀ (i : ℕ), i < l.length →
    ∀ (e c : ℕ), e ≠ 0 → e < 256 → c < 65536 → (∀ b ∈ l, b < 256) →
    (l.set i (l.getD i 0 ^^^ e)).foldl crcByteStep c ≠ l.foldl crcByteStep c := by
  induction l with
  | nil =>
    intro i hi
    simp at hi
  | cons x t ih =>
    intro i hi e c he helt hc hb
    cases i with
    | zero =>
      simp only [List.set_cons_zero, List.getD_cons_zero, List.foldl_cons]
      have hx : crcByteStep c (x ^^^ e) = crcByteStep c x ^^^ crcBitStep^[8] e := by
        unfold crcByteStep
        rw [← Nat.xor_assoc]
        exact crcIter_xor 8 (c ^^^ x) e
      rw [hx, foldl_crc_xor]
      intro heq
      have hD : crcBitStep^[8 * t.length] (crcBitStep^[8] e) = 0 := xor_eq_left _ _ heq
      rw [← Function.iterate_add_apply] at hD
      exact crcIter_ne_zero _ e (by omega) he hD
    | succ j =>
      simp only [List.set_cons_succ, List.getD_cons_succ, List.foldl_cons]
      have hx : x < 256 := hb x (by simp)
      exact ih j (by simpa using hi) e (crcByteStep c x) he helt
        (crcByteStep_lt c x hc (by omega)) (fun b hbm => hb b (by simp [hbm]))

theorem mask16_eq (x : ℕ) (h : x < 65536) : x &&& 0xFFFF = x := by
  have h16 : x < 2 ^ 16 := by
    rw [show (2 : ℕ) ^ 16 = 65536 by norm_num]
    exact h
  rw [show (0xFFFF : ℕ) = 2 ^ 16 - 1 by norm_num]
  exact Nat.and_pow_two_sub_one_of_lt_two_pow h16

theorem compute_crc_lt (data : List ℕ) : compute_crc data < 65536 := by
  unfold compute_crc
  have h := Nat.and_le_right (n := data.foldl crcByteStep 0xFFFF) (m := 0xFFFF)
  omega

theorem compute_crc_set_ne (data : List ℕ) (i : ℕ) (hi : i < data.length) (e : ℕ)
    (he : e ≠ 0) (helt : e < 256) (hb : ∀ b ∈ data, b < 256) :
    compute_crc (data.set i (data.getD i 0 ^^^ e)) ≠ compute_crc data := by
  have h1 : data.foldl crcByteStep 0xFFFF < 65536 :=
    foldl_crc_lt data 0xFFFF (by norm_num) hb
  have hx : data.getD i 0 < 256 := by
    have hg := List.getD_eq_getElem?_getD data i 0
    rw [List.getElem?_eq_getElem hi] at hg
    rw [hg]
    exact hb _ (List.getElem_mem hi)
  have hbs : ∀ b ∈ data.set i (data.getD i 0 ^^^ e), b < 256 := by
    intro b hbm
    rcases List.mem_or_eq_of_mem_set hbm with h | h
    · exact hb b h
    · subst h
      have e8 : (256 : ℕ) = 2 ^ 8 := by norm_num
      rw [e8] at hx helt ⊢
      exact Nat.xor_lt_two_pow hx helt
  have h2 : (data.set i (data.getD i 0 ^^^ e)).foldl crcByteStep 0xFFFF < 65536 :=
    foldl_crc_lt _ 0xFFFF (by norm_num) hbs
  have h3 := foldl_crc_set_ne data i hi e 0xFFFF he helt (by norm_num) hb
  unfold compute_crc
  rw [mask16_eq _ h2, mask16_eq _ h1]
  exact h3

theorem lor_shift8 (lo hi : ℕ) (h : lo < 256) : lo ||| (hi <<< 8) = 256 * hi + lo := by
  have h8 : lo < 2 ^ 8 := by
    rw [show (2 : ℕ) ^ 8 = 256 by norm_num]
    exact h
  rw [Nat.shiftLeft_eq, Nat.lor_comm, mul_comm hi, ← Nat.mul_add_lt_is_or h8,
    show (2 : ℕ) ^ 8 = 256 by norm_num]

theorem validate_append_eq (d : List ℕ) (lo hi : ℕ) (h3 : 3 ≤ d.length)
    (hlo : lo < 256) :
    validate_rtu_frame (d ++ [lo, hi]) = (256 * hi + lo == compute_crc d) := by
  unfold validate_rtu_frame
  have hlen : (d ++ [lo, hi]).length = d.length + 2 := by simp
  rw [hlen, if_neg (by omega)]
  have ht : (d ++ [lo, hi]).take (d.length + 2 - 2) = d := by
    rw [show d.length + 2 - 2 = d.length by omega]
    exact List.take_left' rfl
  have g1 : (d ++ [lo, hi]).getD (d.length + 2 - 2) 0 = lo := by
    rw [show d.length + 2 - 2 = d.length by omega, List.getD_eq_getElem?_getD,
      List.getElem?_append_right (Nat.le_refl _)]
    simp
  have g2 : (d ++ [lo, hi]).getD (d.length + 2 - 1) 0 = hi := by
    rw [show d.length + 2 - 1 = d.length + 1 by omega, List.getD_eq_getElem?_getD,
      List.getElem?_append_right (by omega)]
    simp [show d.length + 1 - d.length = 1 by omega]
  rw [ht, g1, g2, lor_shift8 lo hi hlo]

theorem validate_append_crc (data : List ℕ) (h3 : 3 ≤ data.length) :
    validate_rtu_frame (data ++ le16 (compute_crc data)) = true := by
  unfold le16
  rw [validate_append_eq data _ _ h3 (Nat.mod_lt _ (by norm_num)),
    Nat.div_add_mod]
  exact beq_self_eq_true _

theorem validate_flip (data : List ℕ) (h3 : 3 ≤ data.length)
    (hb : ∀ b ∈ data, b < 256) (i j : ℕ) (hi : i < data.length + 2) (hj : j < 8) :
    validate_rtu_frame (flipBit (data ++ le16 (compute_crc data)) i j) = false := by
  have hclt : compute_crc data < 65536 := compute_crc_lt data
  have hlo : compute_crc data % 256 < 256 := Nat.mod_lt _ (by norm_num)
  have hhi : compute_crc data / 256 < 256 := by omega
  have he : (2 : ℕ) ^ j ≠ 0 := (Nat.two_pow_pos j).ne'
  have helt : (2 : ℕ) ^ j < 256 := by
    calc (2 : ℕ) ^ j ≤ 2 ^ 7 := Nat.pow_le_pow_right (by norm_num) (by omega)
    _ < 256 := by norm_num
  unfold flipBit le16
  rcases Nat.lt_trichotomy i data.length with hilt | hieq | higt
  · have hgd : (data ++ [compute_crc data % 256, compute_crc data / 256]).getD i 0
        = data.getD i 0 := by
      rw [List.getD_eq_getElem?_getD, List.getD_eq_getElem?_getD,
        List.getElem?_append_left hilt]
    rw [hgd, List.set_append_left _ _ hilt,
      validate_append_eq _ _ _ (by rw [List.length_set]; exact h3) hlo,
      Nat.div_add_mod]
    have hne := compute_crc_set_ne data i hilt (2 ^ j) he helt hb
    exact beq_eq_false_iff_ne.mpr (fun h => hne h.symm)
  · subst hieq
    have hgd : (data ++ [compute_crc data % 256, compute_crc data / 256]).getD
        data.length 0 = compute_crc data % 256 := by
      rw [List.getD_eq_getElem?_getD, List.getElem?_append_right (Nat.le_refl _)]
      simp
    rw [hgd, List.set_append_right _ _ (Nat.le_refl _), Nat.sub_self,
      List.set_cons_zero]
    have hxlt : compute_crc data % 256 ^^^ 2 ^ j < 256 := by
      have e8 : (256 : ℕ) = 2 ^ 8 := by norm_num
      rw [e8] at hlo helt ⊢
      exact Nat.xor_lt_two_pow hlo helt
    rw [validate_append_eq _ _ _ h3 hxlt]
    apply beq_eq_false_iff_ne.mpr
    intro heq
    have hdm := Nat.div_add_mod (compute_crc data) 256
    have h2 : compute_crc data % 256 ^^^ 2 ^ j = compute_crc data % 256 := by omega
    exact he (xor_eq_left _ _ h2)
  · have hieq : i = data.length + 1 := by omega
    subst hieq
    have hgd : (data ++ [compute_crc data % 256, compute_crc data / 256]).getD
        (data.length + 1) 0 = compute_crc data / 256 := by
      rw [List.getD_eq_getElem?_getD, List.getElem?_append_right (by omega)]
      simp [show data.length + 1 - data.length = 1 by omega]
    rw [hgd, List.set_append_right _ _ (by omega),
      show data.length + 1 - data.length = 1 by omega,
      List.set_cons_succ, List.set_cons_zero]
    rw [validate_append_eq _ _ _ h3 hlo]
    apply beq_eq_false_iff_ne.mpr
    intro heq
    have hdm := Nat.div_add_mod (compute_crc data) 256
    have h2 : compute_crc data / 256 ^^^ 2 ^ j = compute_crc data / 256 := by omega
    exact he (xor_eq_left _ _ h2)

/-- Claim C3 as amended: for every byte sequence `data` of at least 3
bytes, appending the little-endian encoding of `compute_crc data` yields a
frame that `validate_rtu_frame` accepts, and flipping any single bit
anywhere in that frame (data or checksum bytes) makes validation fail.
The 3-byte floor is forced by the `len(frame) < 5` rejection. -/
theorem crc_roundtrip_and_bitflip (data : List ℕ) (h3 : 3 ≤ data.length)
    (hb : ∀ b ∈ data, b < 256) :
    validate_rtu_frame (data ++ le16 (compute_crc data)) = true ∧
    ∀ i j, i < data.length + 2 → j < 8 →
      validate_rtu_frame (flipBit (data ++ le16 (compute_crc data)) i j) = false :=
  ⟨validate_append_crc data h3,
    fun i j hi hj => validate_flip data h3 hb i j hi hj⟩

/-- Counterexample to claim C3 as stated: for the empty byte sequence the
checksummed frame has only 2 bytes, so `validate_rtu_frame` rejects it
(`len(frame) < 5`), falsifying the universally quantified round-trip. -/
theorem crc_verify_empty_cex :
    validate_rtu_frame ([] ++ le16 (compute_crc [])) = false := by decide

/-- Witness for C3: round-trip plus two concrete flips (a data bit and a
checksum bit) on the 3-byte sequence `[1, 2, 3]`. -/
theorem crc_roundtrip_and_bitflip_witness :
    validate_rtu_frame ([1, 2, 3] ++ le16 (compute_crc [1, 2, 3])) = true ∧
    validate_rtu_frame (flipBit ([1, 2, 3] ++ le16 (compute_crc [1, 2, 3])) 2 5)
      = false ∧
    validate_rtu_frame (flipBit ([1, 2, 3] ++ le16 (compute_crc [1, 2, 3])) 4 0)
      = false :=
  ⟨(crc_roundtrip_and_bitflip [1, 2, 3] (by decide) (by decide)).1,
    (crc_roundtrip_and_bitflip [1, 2, 3] (by decide) (by decide)).2 2 5
      (by decide) (by decide),
    (crc_roundtrip_and_bitflip [1, 2, 3] (by decide) (by decide)).2 4 0
      (by decide) (by decide)⟩

end Balance
